import Mathlib

/-!
Shallow embedding of the fraud-dashboard filter-and-aggregate pipeline.

Sources embedded:
  * `src/app.py` (global-heatmap variant): `load_data`, the sidebar option
    lists, the five-dimension filter `mask`, the `daily` loss table with
    monthly cumulative columns, `daily_rate`, `by_country`,
    `fraud_month_pos` (pivot), `country_coords` / `country_vol` (geo join).
  * `src/data/app.py` (basic variant): the two-dimension filter `mask`,
    `daily` rate, `by_country`.

Pandas semantics modelled explicitly:
  * a DataFrame is a `List Row` in input order; boolean-mask selection is
    `List.filter` (order-preserving);
  * a nullable column is `Option String`; `Series.isin` is membership of
    the present value (a null value is never a member of a list);
  * `groupby` (default `sort=True`, `dropna=True`) drops rows whose key is
    null and emits one group per distinct key, in ascending key order;
  * `groupby(...).cumsum()` is the prefix sum within each group, taken in
    the row order of the grouped table;
  * `unstack(fill_value=0)` totalises the (row, column) cells, an
    unobserved combination becoming `0` instead of a missing value;
  * numeric columns (`transaction_amount`, `fraud`) are rationals — the
    dataset is money and 0/1 flags, for which ℚ is exact.
Timestamps: every operation in the source uses only the calendar date
(`.dt.date`) or the calendar month (`.dt.to_period("M")`) of
`transaction_date_time`, so the timestamp is embedded at day precision.
-/

/-- Calendar date (the value of `Series.dt.date`). -/
structure Date where
  year : Nat
  month : Nat
  day : Nat
deriving DecidableEq, Repr

/-- Calendar month (the value of `Series.dt.to_period("M").astype(str)`,
a `"YYYY-MM"` string; embedded as the pair so that the lexicographic
order of such strings becomes the lexicographic order on the pair). -/
structure Month where
  year : Nat
  month : Nat
deriving DecidableEq, Repr

/-- Ordering of `datetime.date` values. -/
def dateLe (a b : Date) : Bool :=
  if a.year ≠ b.year then a.year < b.year
  else if a.month ≠ b.month then a.month < b.month
  else a.day ≤ b.day

/-- Ordering of `"YYYY-MM"` month strings (lexicographic = numeric). -/
def monthLe (a b : Month) : Bool :=
  if a.year ≠ b.year then a.year < b.year
  else a.month ≤ b.month

/-- The month of a date (`to_period("M")`). -/
def monthOf (d : Date) : Month := ⟨d.year, d.month⟩

/-- One row of the transaction table, with the columns the embedded code
reads. Categorical columns are nullable (`Option`). -/
structure Row where
  transaction_date_time : Date
  transaction_amount : ℚ
  fraud : ℚ
  fraud_type : Option String
  merchant_category_code : Option String
  merchant_name : Option String
  merchant_country_code : Option String
  pos_entry_desc : Option String
  transaction_type_desc : Option String
deriving DecidableEq, Repr

/-! ### List machinery shared by the pandas operations

`firstDedup` is `Series.unique()` (first-encountered order);
`sortBy` is a stable insertion sort, the deterministic model used for
every pandas key sort. -/

/-- `Series.unique()`: distinct values, first occurrence kept, helper. -/
def firstDedupAux [DecidableEq α] (seen : List α) : List α → List α
  | [] => []
  | a :: l => if a ∈ seen then firstDedupAux seen l else a :: firstDedupAux (a :: seen) l

/-- `Series.unique()`: distinct values in first-encountered order. -/
def firstDedup [DecidableEq α] (l : List α) : List α := firstDedupAux [] l

/-- Insert into a sorted list, before the first element it is `le` to
(stable: an element is inserted before later tied elements never after). -/
def insertSorted (le : α → α → Bool) (a : α) : List α → List α
  | [] => [a]
  | b :: l => if le a b then a :: b :: l else b :: insertSorted le a l

/-- Stable insertion sort by a Boolean relation. -/
def sortBy (le : α → α → Bool) : List α → List α
  | [] => []
  | a :: l => insertSorted le a (sortBy le l)

/-! ### Order relations used as pandas sort keys -/

/-- Code-point lexicographic comparison of character lists. -/
def charsLe : List Char → List Char → Bool
  | [], _ => true
  | _ :: _, [] => false
  | a :: as, b :: bs =>
    if a.toNat < b.toNat then true
    else if b.toNat < a.toNat then false
    else charsLe as bs

/-- Lexicographic code-point order on strings, the order in which both
the Python builtin `sorted` and pandas compare string keys. -/
def strLe (a b : String) : Bool := charsLe a.data b.data

/-- Lexicographic order on the (`date`, `month`) groupby key tuples. -/
def dailyKeyLe (a b : Date × Month) : Bool :=
  if a.1 = b.1 then monthLe a.2 b.2 else dateLe a.1 b.1

/-- Lexicographic order on the (`month`, `pos_entry_desc`) key tuples. -/
def monthPosLe (a b : Month × String) : Bool :=
  if a.1 = b.1 then strLe a.2 b.2 else monthLe a.1 b.1

/-- Order on rationals, for `sort_values`. -/
def ratLe (a b : ℚ) : Bool := decide (a ≤ b)

/-! ### Filter Engine

`mask`, src/app.py lines 59–66 and src/data/app.py lines 52–56: a
conjunction of an inclusive date-range test and one
`df[col].isin(sel) if sel else True` conjunct per dimension. -/

/-- `Series.isin(sel)` at one entry: a null entry is never a member of
the selection list. -/
def seriesIsin (v : Option String) (sel : List String) : Bool :=
  match v with
  | none => false
  | some s => sel.contains s

/-- One mask conjunct `df[col].isin(sel) if sel else True`: an empty
selection contributes `True` (Python truthiness of the empty list). -/
def dimMask (sel : List String) (v : Option String) : Bool :=
  if sel.isEmpty then true else seriesIsin v sel

/-- `df["transaction_date_time"].dt.date.between(start_date, end_date)`:
inclusive on both ends. -/
def dateBetween (start stop d : Date) : Bool := dateLe start d && dateLe d stop

/-- The sidebar selections of the heatmap variant (src/app.py lines 45,
53–57): a date range plus five categorical include-sets. -/
structure FilterCriteria where
  start_date : Date
  end_date : Date
  mcc_sel : List String
  pos_sel : List String
  mn_sel : List String
  ft_sel : List String
  cty_sel : List String

/-- `mask`, src/app.py lines 59–66. -/
def rowMask (c : FilterCriteria) (r : Row) : Bool :=
  dateBetween c.start_date c.end_date r.transaction_date_time
  && dimMask c.mcc_sel r.merchant_category_code
  && dimMask c.pos_sel r.pos_entry_desc
  && dimMask c.mn_sel r.merchant_name
  && dimMask c.ft_sel r.fraud_type
  && dimMask c.cty_sel r.merchant_country_code

/-- `view = df[mask]`, src/app.py line 67. -/
def filterView (c : FilterCriteria) (df : List Row) : List Row := df.filter (rowMask c)

/-- The sidebar selections of the basic variant (src/data/app.py lines
38–49): a date range plus two categorical include-sets. -/
structure FilterCriteria2 where
  start_date : Date
  end_date : Date
  txn_sel : List String
  cty_sel : List String

/-- `mask`, src/data/app.py lines 52–56. -/
def rowMask2 (c : FilterCriteria2) (r : Row) : Bool :=
  dateBetween c.start_date c.end_date r.transaction_date_time
  && dimMask c.txn_sel r.transaction_type_desc
  && dimMask c.cty_sel r.merchant_country_code

/-- `view = df[mask]`, src/data/app.py line 57. -/
def filterView2 (c : FilterCriteria2) (df : List Row) : List Row := df.filter (rowMask2 c)

/-! ### Spec-side filter predicate (for the refinement claim C1) -/

/-- Modelled from the words of the spec only (§4.1): for a dimension with
a non-empty include-set the value of the row must be a member of the set; an
empty include-set imposes no constraint; a null value in a constrained
dimension is excluded. -/
def specDimOk (sel : List String) (v : Option String) : Bool :=
  if sel = [] then true
  else
    match v with
    | none => false
    | some s => decide (s ∈ sel)

/-- Modelled from the words of the spec only (§4.1): the date of the timestamp lies
in [start, end] inclusive and every dimension passes `specDimOk`. -/
def specRowPred (c : FilterCriteria) (r : Row) : Bool :=
  (dateLe c.start_date r.transaction_date_time
    && dateLe r.transaction_date_time c.end_date)
  && specDimOk c.mcc_sel r.merchant_category_code
  && specDimOk c.pos_sel r.pos_entry_desc
  && specDimOk c.mn_sel r.merchant_name
  && specDimOk c.ft_sel r.fraud_type
  && specDimOk c.cty_sel r.merchant_country_code

/-- Spec-side predicate for the two dimensions of the basic variant. -/
def specRowPred2 (c : FilterCriteria2) (r : Row) : Bool :=
  (dateLe c.start_date r.transaction_date_time
    && dateLe r.transaction_date_time c.end_date)
  && specDimOk c.txn_sel r.transaction_type_desc
  && specDimOk c.cty_sel r.merchant_country_code

/-! ### Dataset Loader (heatmap variant)

src/app.py lines 8–20. Only the VELOCITY row exclusion is embedded: the
`drop(columns=["transaction_type_code", "transaction_type_desc"],
errors="ignore")` step removes columns no code of that variant reads
afterwards, so it does not affect any embedded operation. -/

/-- `Series.str.upper()` at one present entry: uppercase every character
(the category values of the dataset are ASCII). -/
def strUpper (s : String) : String := ⟨s.data.map Char.toUpper⟩

/-- The row predicate of the `query` call excluding VELOCITY (lines 14-15
of src/app.py): `str.upper()` maps a null to null, and a null compares
not-equal to any string in pandas, so rows with a null `fraud_type` are
kept. -/
def keepsRow (r : Row) : Bool :=
  match r.fraud_type with
  | none => true
  | some s => !(strUpper s == "VELOCITY")

/-- `load_data`, src/app.py lines 8–20, applied to the parsed CSV rows. -/
def load_data (raw : List Row) : List Row := raw.filter keepsRow

/-- `ft_opts`, src/app.py line 50:
`sorted([ft for ft in df["fraud_type"].dropna().unique() if ft])` —
distinct non-null values, the empty string dropped by Python truthiness,
then sorted. -/
def ft_opts (df : List Row) : List String :=
  sortBy strLe ((firstDedup (df.filterMap Row.fraud_type)).filter fun s => !(s == ""))

/-! ### Aggregator -/

/-- `groupby` keys (default `sort=True`, `dropna=True`): rows with a null
key are dropped, one group per distinct key, keys in ascending order. -/
def groupbyKeys [DecidableEq κ] (le : κ → κ → Bool) (key : α → Option κ)
    (l : List α) : List κ :=
  sortBy le (firstDedup (l.filterMap key))

/-- The rows of one `groupby` group. -/
def groupRows [DecidableEq κ] (key : α → Option κ) (k : κ) (l : List α) : List α :=
  l.filter fun a => decide (key a = some k)

/-- `fraud_view = view[view["fraud"] == 1]`, src/app.py line 71. -/
def fraudView (view : List Row) : List Row := view.filter fun r => decide (r.fraud = 1)

/-- The groupby key of the daily loss table: the `date` and `month`
columns added on src/app.py lines 72–73. -/
def dailyKey (r : Row) : Date × Month :=
  (r.transaction_date_time, monthOf r.transaction_date_time)

/-- One row of `daily`, src/app.py lines 75–80. -/
structure DailyRow where
  date : Date
  month : Month
  fraud_volume : Nat
  fraud_value : ℚ
deriving DecidableEq, Repr

/-- The aggregation of one (`date`, `month`) group:
`fraud_volume=("fraud", "count")` counts the (never-null) `fraud` entries,
`fraud_value=("transaction_amount", "sum")` sums the amounts. -/
def dailyAgg (rows : List Row) (k : Date × Month) : DailyRow :=
  { date := k.1
    month := k.2
    fraud_volume := (groupRows (fun r => some (dailyKey r)) k rows).length
    fraud_value :=
      ((groupRows (fun r => some (dailyKey r)) k rows).map Row.transaction_amount).sum }

/-- `daily` before the cumulative columns, src/app.py lines 75–80:
`fraud_view.groupby(["date", "month"]).agg(...).reset_index()`. -/
def dailyTable (view : List Row) : List DailyRow :=
  (groupbyKeys dailyKeyLe (fun r => some (dailyKey r)) (fraudView view)).map
    (dailyAgg (fraudView view))

/-- One row of `daily` after the two cumulative columns are added. -/
structure DailyCumRow where
  date : Date
  month : Month
  fraud_volume : Nat
  fraud_value : ℚ
  month_cum_volume : Nat
  month_cum_value : ℚ
deriving DecidableEq, Repr

/-- `groupby("month")[...].cumsum()` over the rows of `daily`, in row
order: each row receives the sum of the values of its month over the rows up
to and including itself (`pre` is the list of rows already passed). -/
def addCum (pre : List DailyRow) : List DailyRow → List DailyCumRow
  | [] => []
  | a :: rest =>
    { date := a.date
      month := a.month
      fraud_volume := a.fraud_volume
      fraud_value := a.fraud_value
      month_cum_volume :=
        (((pre ++ [a]).filter fun x => decide (x.month = a.month)).map
          DailyRow.fraud_volume).sum
      month_cum_value :=
        (((pre ++ [a]).filter fun x => decide (x.month = a.month)).map
          DailyRow.fraud_value).sum }
    :: addCum (pre ++ [a]) rest

/-- `daily` with `month_cum_volume` and `month_cum_value`, src/app.py
lines 81–82. -/
def dailyWithCum (view : List Row) : List DailyCumRow := addCum [] (dailyTable view)

/-- The mean of the `fraud` column over a list of rows. -/
def fraudMean (rows : List Row) : ℚ := (rows.map Row.fraud).sum / rows.length

/-- `daily_rate`, src/app.py lines 93–98 (identical to `daily` in
src/data/app.py lines 66–72): group the view by calendar date,
`mean(fraud) * 100`. -/
def dailyRate (view : List Row) : List (Date × ℚ) :=
  (groupbyKeys dateLe (fun r => some r.transaction_date_time) view).map fun d =>
    (d, fraudMean (groupRows (fun r => some r.transaction_date_time) d view) * 100)

/-- The per-country rate groups of `by_country` before sorting,
src/app.py lines 104–107 (and src/data/app.py lines 76–79): groupby
(sorted keys, null countries dropped), `mean(fraud) * 100`. -/
def countryRates (view : List Row) : List (String × ℚ) :=
  (groupbyKeys strLe Row.merchant_country_code view).map fun c =>
    (c, fraudMean (groupRows Row.merchant_country_code c view) * 100)

/-- The comparison of `sort_values(ascending=False)` on the rate column,
modelled as a stable descending sort. -/
def rateDesc (a b : String × ℚ) : Bool := ratLe b.2 a.2

/-- `by_country` before truncation: `.sort_values(ascending=False)`. -/
def byCountryFull (view : List Row) : List (String × ℚ) :=
  sortBy rateDesc (countryRates view)

/-- `by_country`, src/app.py lines 104–110: `.head(15)`. -/
def by_country (view : List Row) : List (String × ℚ) := (byCountryFull view).take 15

/-- Modelled from the words of the spec only (§4.2): the first-encountered
order of the grouping keys over the input table. -/
def firstEncounteredCountries (view : List Row) : List String :=
  firstDedup (view.filterMap Row.merchant_country_code)

/-- Keys of the `fraud_month_pos` groupby, src/app.py lines 115–119:
(`month`, `pos_entry_desc`), rows with a null pos dropped by groupby. -/
def fmpKey (r : Row) : Option (Month × String) :=
  r.pos_entry_desc.map fun p => (monthOf r.transaction_date_time, p)

/-- The observed (`month`, `pos`) keys in ascending order. -/
def fmpKeys (rows : List Row) : List (Month × String) :=
  groupbyKeys monthPosLe fmpKey rows

/-- The row index of the `unstack`: the months observed among the keys. -/
def fmpMonths (rows : List Row) : List Month := firstDedup ((fmpKeys rows).map Prod.fst)

/-- The columns of the `unstack`: the pos values observed among the keys,
in ascending order. -/
def fmpCols (rows : List Row) : List String :=
  sortBy strLe (firstDedup ((fmpKeys rows).map Prod.snd))

/-- One cell of the groupby result before `unstack`: the summed amount
when the (month, pos) combination is observed, missing otherwise. -/
def fmpCellOpt (rows : List Row) (m : Month) (p : String) : Option ℚ :=
  if (m, p) ∈ fmpKeys rows then
    some (((groupRows fmpKey (m, p) rows).map Row.transaction_amount).sum)
  else none

/-- `fraud_month_pos`, src/app.py lines 115–121: the pivot after
`unstack(fill_value=0)` — one row per observed month carrying one entry
per observed pos column, an unobserved combination filled with `0`. -/
def fraud_month_pos (view : List Row) : List (Month × List ℚ) :=
  (fmpMonths (fraudView view)).map fun m =>
    (m, (fmpCols (fraudView view)).map fun p => (fmpCellOpt (fraudView view) m p).getD 0)

/-! ### Geo Projector -/

/-- `country_coords`, src/app.py lines 128–143: the fixed code →
(latitude, longitude) mapping. -/
def country_coords : List (String × ℚ × ℚ) :=
  [("GB", (54.0, -2.0)), ("US", (39.5, -98.35)), ("CA", (56.1, -106.3)),
   ("FR", (46.2, 2.2)), ("DE", (51.1, 10.4)), ("NL", (52.1, 5.3)),
   ("IE", (53.1, -8.2)), ("ES", (40.5, -3.7)), ("IT", (42.8, 12.5)),
   ("AU", (-25.3, 133.8)), ("NZ", (-41.0, 174.0)), ("IN", (22.6, 78.9)),
   ("CN", (35.9, 104.2)), ("JP", (36.2, 138.2)), ("HK", (22.3, 114.2)),
   ("SG", (1.3, 103.8)), ("KR", (36.5, 127.9)), ("MY", (4.2, 101.9)),
   ("TH", (15.9, 100.9)), ("PH", (12.9, 122.9)), ("BR", (-14.2, -51.9)),
   ("MX", (23.6, -102.6)), ("AR", (-38.4, -63.6)), ("ZA", (-28.5, 24.7)),
   ("KE", (-0.0, 37.9)), ("NG", (9.1, 8.7)), ("GH", (7.9, -1.0)),
   ("EG", (26.8, 29.8)), ("RU", (61.5, 105.3)), ("UA", (48.4, 31.1)),
   ("IR", (32.5, 53.7)), ("PK", (30.4, 69.3)), ("TR", (38.9, 35.2)),
   ("AE", (24.2, 54.7)), ("SA", (24.1, 45.0)), ("QA", (25.3, 51.2)),
   ("CO", (4.6, -74.1)), ("CL", (-30.0, -71.0)), ("PE", (-9.2, -75.0)),
   ("ID", (-2.3, 118.0))]

/-- `country_coords.get(c, (None, None))`: dictionary lookup. -/
def coordOf (c : String) : Option (ℚ × ℚ) :=
  (country_coords.find? fun p => p.1 == c).map Prod.snd

/-- `country_vol` before the geo join, src/app.py lines 146–150: fraud
count per country (`reset_index(name="fraud_volume")`). -/
def countryVol (view : List Row) : List (String × Nat) :=
  (groupbyKeys strLe Row.merchant_country_code (fraudView view)).map fun c =>
    (c, (groupRows Row.merchant_country_code c (fraudView view)).length)

/-- src/app.py lines 152–154: attach the `lat`/`lon` columns from the
lookup (null when the code is unmapped) and `dropna(subset=["lat","lon"])`. -/
def countryVolGeo (view : List Row) : List (String × Nat × ℚ × ℚ) :=
  (countryVol view).filterMap fun p =>
    match coordOf p.1 with
    | some q => some (p.1, p.2, q.1, q.2)
    | none => none

/-! ### Concrete fixtures for evaluating the definitions -/

/-- A transaction row with the given date, amount, fraud flag, country,
fraud type and pos mode; the remaining categoricals null. -/
def mkRow (d : Date) (amt fr : ℚ) (cty ft pos : Option String) : Row :=
  { transaction_date_time := d
    transaction_amount := amt
    fraud := fr
    fraud_type := ft
    merchant_category_code := none
    merchant_name := none
    merchant_country_code := cty
    pos_entry_desc := pos
    transaction_type_desc := none }

/-- Inverted-range criteria for the heatmap variant. -/
def critInv : FilterCriteria :=
  { start_date := ⟨2024, 1, 2⟩, end_date := ⟨2024, 1, 1⟩
    mcc_sel := [], pos_sel := ["chip"], mn_sel := [], ft_sel := [], cty_sel := [] }

/-- Inverted-range criteria for the basic variant. -/
def critInv2 : FilterCriteria2 :=
  { start_date := ⟨2024, 1, 2⟩, end_date := ⟨2024, 1, 1⟩
    txn_sel := [], cty_sel := ["GB"] }

/-- A four-row table spanning two months and two countries. -/
def exRows : List Row :=
  [mkRow ⟨2024, 1, 1⟩ 50 1 (some "ZZ") (some "CNP") (some "chip"),
   mkRow ⟨2024, 1, 2⟩ 20 0 (some "AA") none (some "manual"),
   mkRow ⟨2024, 1, 2⟩ 30 1 (some "AA") (some "CNP") (some "chip"),
   mkRow ⟨2024, 2, 1⟩ 40 1 (some "AA") (some "Velocity") none]

unseal Rat.add Rat.mul Rat.inv Rat.ofScientific Rat.sub

/-! ### Lemmas about the list machinery -/

theorem mem_insertSorted (le : α → α → Bool) (a x : α) (l : List α) :
    x ∈ insertSorted le a l ↔ x = a ∨ x ∈ l := by
  induction l with
  | nil => simp [insertSorted]
  | cons b l ih =>
    simp only [insertSorted]
    by_cases h : le a b = true
    · simp [h]
    · simp only [if_neg h, List.mem_cons, ih]
      tauto

theorem mem_sortBy (le : α → α → Bool) (x : α) (l : List α) :
    x ∈ sortBy le l ↔ x ∈ l := by
  induction l with
  | nil => simp [sortBy]
  | cons a l ih => simp [sortBy, mem_insertSorted, ih]

theorem mem_firstDedupAux [DecidableEq α] (seen l : List α) (x : α) :
    x ∈ firstDedupAux seen l ↔ x ∈ l ∧ x ∉ seen := by
  induction l generalizing seen with
  | nil => simp [firstDedupAux]
  | cons a l ih =>
    simp only [firstDedupAux]
    by_cases h : a ∈ seen
    · rw [if_pos h, ih]
      simp only [List.mem_cons]
      constructor
      · rintro ⟨hx, hs⟩
        exact ⟨Or.inr hx, hs⟩
      · rintro ⟨rfl | hx, hs⟩
        · exact absurd h hs
        · exact ⟨hx, hs⟩
    · rw [if_neg h]
      simp only [List.mem_cons, ih, List.mem_cons, not_or]
      constructor
      · rintro (rfl | ⟨hx, hs⟩)
        · exact ⟨Or.inl rfl, h⟩
        · exact ⟨Or.inr hx, hs.2⟩
      · rintro ⟨rfl | hx, hs⟩
        · exact Or.inl rfl
        · by_cases hxa : x = a
          · exact Or.inl hxa
          · exact Or.inr ⟨hx, hxa, hs⟩

theorem mem_firstDedup [DecidableEq α] (l : List α) (x : α) :
    x ∈ firstDedup l ↔ x ∈ l := by
  rw [firstDedup, mem_firstDedupAux]
  simp

theorem nodup_firstDedupAux [DecidableEq α] (seen l : List α) :
    (firstDedupAux seen l).Nodup := by
  induction l generalizing seen with
  | nil => simp [firstDedupAux]
  | cons a l ih =>
    simp only [firstDedupAux]
    by_cases h : a ∈ seen
    · rw [if_pos h]; exact ih seen
    · rw [if_neg h]
      refine List.nodup_cons.mpr ⟨fun hm => ?_, ih (a :: seen)⟩
      exact ((mem_firstDedupAux (a :: seen) l a).mp hm).2 (List.mem_cons_self a seen)

theorem nodup_firstDedup [DecidableEq α] (l : List α) : (firstDedup l).Nodup :=
  nodup_firstDedupAux [] l

/-- Stability and sortedness of `insertSorted` in one statement: inserting
into a list pairwise-related by `le` (with the original pairwise relation
`Q` surviving on ties) keeps that shape, provided `a` is `Q`-before every
element of the list. -/
theorem pairwise_insertSorted (le : α → α → Bool) (Q : α → α → Prop) (a : α) (s : List α)
    (total : ∀ x y, le x y = true ∨ le y x = true)
    (htrans : ∀ x y z, le x y = true → le y z = true → le x z = true)
    (hs : s.Pairwise fun x y => le x y = true ∧ (le y x = true → Q x y))
    (ha : ∀ b ∈ s, Q a b) :
    (insertSorted le a s).Pairwise fun x y => le x y = true ∧ (le y x = true → Q x y) := by
  induction s with
  | nil =>
    simp [insertSorted]
  | cons b l ih =>
    simp only [insertSorted]
    rcases List.pairwise_cons.mp hs with ⟨hb, hl⟩
    by_cases hab : le a b = true
    · rw [if_pos hab]
      refine List.pairwise_cons.mpr ⟨?_, hs⟩
      intro x hx
      rcases List.mem_cons.mp hx with rfl | hx
      · exact ⟨hab, fun _ => ha x (List.mem_cons_self x l)⟩
      · exact ⟨htrans a b x hab (hb x hx).1, fun _ => ha x (List.mem_cons_of_mem b hx)⟩
    · rw [if_neg hab]
      refine List.pairwise_cons.mpr ⟨?_, ih hl fun c hc => ha c (List.mem_cons_of_mem b hc)⟩
      intro x hx
      rcases (mem_insertSorted le a x l).mp hx with rfl | hx
      · have hba : le b x = true := (total b x).resolve_right (by simpa using hab)
        exact ⟨hba, fun h => absurd h (by simpa using hab)⟩
      · exact hb x hx

/-- `sortBy` is a stable sort: the output is pairwise `le`-ordered, and any
pairwise relation `Q` of the input survives on `le`-ties. -/
theorem pairwise_sortBy (le : α → α → Bool) (Q : α → α → Prop) (l : List α)
    (total : ∀ x y, le x y = true ∨ le y x = true)
    (htrans : ∀ x y z, le x y = true → le y z = true → le x z = true)
    (hl : l.Pairwise Q) :
    (sortBy le l).Pairwise fun x y => le x y = true ∧ (le y x = true → Q x y) := by
  induction l with
  | nil => simp [sortBy]
  | cons a l ih =>
    rcases List.pairwise_cons.mp hl with ⟨haQ, hlQ⟩
    exact pairwise_insertSorted le Q a (sortBy le l) total htrans (ih hlQ)
      fun b hb => haQ b ((mem_sortBy le b l).mp hb)

/-- Plain sortedness of `sortBy` for a total transitive Boolean relation. -/
theorem sorted_sortBy (le : α → α → Bool) (l : List α)
    (total : ∀ x y, le x y = true ∨ le y x = true)
    (htrans : ∀ x y z, le x y = true → le y z = true → le x z = true) :
    (sortBy le l).Pairwise fun x y => le x y = true := by
  have h := pairwise_sortBy le (fun _ _ => True) l total htrans
    (List.pairwise_iff_forall_sublist.mpr fun _ => trivial)
  exact h.imp fun hx => hx.1

/-! ### Lemmas about the order relations -/

theorem dateLe_total (a b : Date) : dateLe a b = true ∨ dateLe b a = true := by
  simp only [dateLe, ne_eq]
  split_ifs <;> simp only [decide_eq_true_eq] <;> omega

theorem dateLe_trans (a b c : Date) (h1 : dateLe a b = true) (h2 : dateLe b c = true) :
    dateLe a c = true := by
  simp only [dateLe, ne_eq] at *
  split_ifs at * <;> simp only [decide_eq_true_eq] at * <;> omega

theorem monthLe_total (a b : Month) : monthLe a b = true ∨ monthLe b a = true := by
  simp only [monthLe, ne_eq]
  split_ifs <;> simp only [decide_eq_true_eq] <;> omega

theorem monthLe_trans (a b c : Month) (h1 : monthLe a b = true) (h2 : monthLe b c = true) :
    monthLe a c = true := by
  simp only [monthLe, ne_eq] at *
  split_ifs at * <;> simp only [decide_eq_true_eq] at * <;> omega

theorem charsLe_total (a b : List Char) : charsLe a b = true ∨ charsLe b a = true := by
  induction a generalizing b with
  | nil => exact Or.inl rfl
  | cons x xs ih =>
    cases b with
    | nil => exact Or.inr rfl
    | cons y ys =>
      simp only [charsLe]
      rcases Nat.lt_trichotomy x.toNat y.toNat with h | h | h
      · left
        rw [if_pos h]
      · rw [if_neg (by omega), if_neg (by omega), if_neg (by omega), if_neg (by omega)]
        exact ih ys
      · right
        rw [if_pos h]

theorem charsLe_trans (a b c : List Char) (h1 : charsLe a b = true)
    (h2 : charsLe b c = true) : charsLe a c = true := by
  induction a generalizing b c with
  | nil => rfl
  | cons x xs ih =>
    cases b with
    | nil => simp [charsLe] at h1
    | cons y ys =>
      cases c with
      | nil => simp [charsLe] at h2
      | cons z zs =>
        simp only [charsLe] at *
        split_ifs at * <;> first
          | rfl
          | omega
          | (exact ih ys zs h1 h2)

theorem charsLe_antisymm (a b : List Char) (h1 : charsLe a b = true)
    (h2 : charsLe b a = true) : a = b := by
  induction a generalizing b with
  | nil =>
    cases b with
    | nil => rfl
    | cons y ys => simp [charsLe] at h2
  | cons x xs ih =>
    cases b with
    | nil => simp [charsLe] at h1
    | cons y ys =>
      simp only [charsLe] at h1 h2
      split_ifs at h1 h2 <;> first
        | omega
        | (exact by
            have hn : x.toNat = y.toNat := by omega
            have hxy : x = y := Char.ext (UInt32.ext hn)
            rw [hxy, ih ys h1 h2])

theorem strLe_total (a b : String) : strLe a b = true ∨ strLe b a = true :=
  charsLe_total a.data b.data

theorem strLe_trans (a b c : String) (h1 : strLe a b = true) (h2 : strLe b c = true) :
    strLe a c = true :=
  charsLe_trans a.data b.data c.data h1 h2

theorem ratLe_total (a b : ℚ) : ratLe a b = true ∨ ratLe b a = true := by
  simp only [ratLe, decide_eq_true_eq]
  exact le_total a b

theorem ratLe_trans (a b c : ℚ) (h1 : ratLe a b = true) (h2 : ratLe b c = true) :
    ratLe a c = true := by
  simp only [ratLe, decide_eq_true_eq] at *
  exact le_trans h1 h2

theorem dateLe_antisymm (a b : Date) (h1 : dateLe a b = true) (h2 : dateLe b a = true) :
    a = b := by
  obtain ⟨y1, m1, d1⟩ := a
  obtain ⟨y2, m2, d2⟩ := b
  simp only [dateLe, ne_eq] at h1 h2
  split_ifs at h1 h2 <;> simp only [decide_eq_true_eq] at * <;>
    simp_all [Date.mk.injEq] <;> omega

theorem monthLe_antisymm (a b : Month) (h1 : monthLe a b = true) (h2 : monthLe b a = true) :
    a = b := by
  obtain ⟨y1, m1⟩ := a
  obtain ⟨y2, m2⟩ := b
  simp only [monthLe, ne_eq] at h1 h2
  split_ifs at h1 h2 <;> simp only [decide_eq_true_eq] at * <;>
    simp_all [Month.mk.injEq] <;> omega

theorem dailyKeyLe_total (a b : Date × Month) :
    dailyKeyLe a b = true ∨ dailyKeyLe b a = true := by
  simp only [dailyKeyLe]
  by_cases h : a.1 = b.1
  · rw [if_pos h, if_pos h.symm]
    exact monthLe_total a.2 b.2
  · rw [if_neg h, if_neg (Ne.symm h)]
    exact dateLe_total a.1 b.1

theorem dailyKeyLe_trans (a b c : Date × Month) (h1 : dailyKeyLe a b = true)
    (h2 : dailyKeyLe b c = true) : dailyKeyLe a c = true := by
  simp only [dailyKeyLe] at *
  by_cases hab : a.1 = b.1 <;> by_cases hbc : b.1 = c.1
  · rw [if_pos hab] at h1
    rw [if_pos hbc] at h2
    rw [if_pos (hab.trans hbc)]
    exact monthLe_trans _ _ _ h1 h2
  · rw [if_neg (hab ▸ hbc)]
    rw [if_neg hbc] at h2
    exact hab ▸ h2
  · rw [if_neg hab] at h1
    rw [if_neg (hbc ▸ hab)]
    exact hbc ▸ h1
  · rw [if_neg hab] at h1
    rw [if_neg hbc] at h2
    by_cases hac : a.1 = c.1
    · exact absurd (dateLe_antisymm _ _ h1 (hac ▸ h2)) hab
    · rw [if_neg hac]
      exact dateLe_trans _ _ _ h1 h2

theorem strLe_antisymm (a b : String) (h1 : strLe a b = true) (h2 : strLe b a = true) :
    a = b :=
  String.ext (charsLe_antisymm a.data b.data h1 h2)

theorem monthPosLe_total (a b : Month × String) :
    monthPosLe a b = true ∨ monthPosLe b a = true := by
  simp only [monthPosLe]
  by_cases h : a.1 = b.1
  · rw [if_pos h, if_pos h.symm]
    exact strLe_total a.2 b.2
  · rw [if_neg h, if_neg (Ne.symm h)]
    exact monthLe_total a.1 b.1

theorem monthPosLe_trans (a b c : Month × String) (h1 : monthPosLe a b = true)
    (h2 : monthPosLe b c = true) : monthPosLe a c = true := by
  simp only [monthPosLe] at *
  by_cases hab : a.1 = b.1 <;> by_cases hbc : b.1 = c.1
  · rw [if_pos hab] at h1
    rw [if_pos hbc] at h2
    rw [if_pos (hab.trans hbc)]
    exact strLe_trans _ _ _ h1 h2
  · rw [if_neg (hab ▸ hbc)]
    rw [if_neg hbc] at h2
    exact hab ▸ h2
  · rw [if_neg hab] at h1
    rw [if_neg (hbc ▸ hab)]
    exact hbc ▸ h1
  · rw [if_neg hab] at h1
    rw [if_neg hbc] at h2
    by_cases hac : a.1 = c.1
    · exact absurd (monthLe_antisymm _ _ h1 (hac ▸ h2)) hab
    · rw [if_neg hac]
      exact monthLe_trans _ _ _ h1 h2

/-! ### Helper lemmas for the Filter Engine claims -/

theorem dimMask_eq_specDimOk (sel : List String) (v : Option String) :
    dimMask sel v = specDimOk sel v := by
  cases sel with
  | nil => rfl
  | cons a l =>
    cases v with
    | none => rfl
    | some s =>
      simp [dimMask, specDimOk, seriesIsin]

theorem rowMask_eq_specRowPred (c : FilterCriteria) (r : Row) :
    rowMask c r = specRowPred c r := by
  simp [rowMask, specRowPred, dateBetween, dimMask_eq_specDimOk]

theorem rowMask2_eq_specRowPred2 (c : FilterCriteria2) (r : Row) :
    rowMask2 c r = specRowPred2 c r := by
  simp [rowMask2, specRowPred2, dateBetween, dimMask_eq_specDimOk]

/-- C1: the Filter Engine returns exactly the subset of rows whose
timestamp date lies in [start, end] inclusive and whose value, for every
dimension with a non-empty include-set, is a member of that set; an empty
include-set imposes no constraint, and a null value in a constrained
dimension is excluded (ordering preserved, for both app variants). -/
theorem C1_filter_engine_matches_spec :
    (∀ (c : FilterCriteria) (df : List Row),
      filterView c df = df.filter (specRowPred c)) ∧
    (∀ (c : FilterCriteria2) (df : List Row),
      filterView2 c df = df.filter (specRowPred2 c)) := by
  constructor
  · intro c df
    unfold filterView
    exact List.filter_congr fun r _ => rowMask_eq_specRowPred c r
  · intro c df
    unfold filterView2
    exact List.filter_congr fun r _ => rowMask2_eq_specRowPred2 c r

theorem dateBetween_of_inverted (s e d : Date) (h : dateLe s e = false) :
    dateBetween s e d = false := by
  cases h1 : dateLe s d <;> cases h2 : dateLe d e <;>
    simp [dateBetween, h1, h2]
  exact absurd (dateLe_trans s d e h1 h2) (by simp [h])

/-- C4: with start > end the date predicate holds for no row, so both
Filter Engines of both variants return the empty view (no error), whatever the
include-sets. -/
theorem C4_inverted_range_empty :
    (∀ (df : List Row) (c : FilterCriteria), dateLe c.start_date c.end_date = false →
      filterView c df = []) ∧
    (∀ (df : List Row) (c : FilterCriteria2), dateLe c.start_date c.end_date = false →
      filterView2 c df = []) := by
  constructor
  · intro df c h
    unfold filterView
    rw [List.filter_eq_nil_iff]
    intro r _
    simp [rowMask, dateBetween_of_inverted _ _ _ h]
  · intro df c h
    unfold filterView2
    rw [List.filter_eq_nil_iff]
    intro r _
    simp [rowMask2, dateBetween_of_inverted _ _ _ h]

theorem C4_inverted_range_empty_witness :
    filterView critInv exRows = [] ∧ filterView2 critInv2 exRows = [] :=
  ⟨C4_inverted_range_empty.1 exRows critInv (by decide),
   C4_inverted_range_empty.2 exRows critInv2 (by decide)⟩

/-- C9: filtering is idempotent — applying the Filter Engine of either variant
to an already-filtered view with the same criteria returns that view. -/
theorem C9_filter_idempotent :
    (∀ (c : FilterCriteria) (df : List Row),
      filterView c (filterView c df) = filterView c df) ∧
    (∀ (c : FilterCriteria2) (df : List Row),
      filterView2 c (filterView2 c df) = filterView2 c df) := by
  constructor
  · intro c df
    simp [filterView, List.filter_filter]
  · intro c df
    simp [filterView2, List.filter_filter]

/-- C8: after the load-time exclusion, no row of the loaded table has a
fraud type that uppercases to VELOCITY, and the fraud-type option list
derived from the loaded table never contains such a value. -/
theorem C8_velocity_excluded (raw : List Row) :
    (∀ r ∈ load_data raw, ∀ s, r.fraud_type = some s → strUpper s ≠ "VELOCITY") ∧
    (∀ s ∈ ft_opts (load_data raw), strUpper s ≠ "VELOCITY") := by
  have key : ∀ r ∈ load_data raw, ∀ s, r.fraud_type = some s → strUpper s ≠ "VELOCITY" := by
    intro r hr s hfs
    have hk := (List.mem_filter.mp hr).2
    simp only [keepsRow, hfs, Bool.not_eq_true'] at hk
    simpa using hk
  refine ⟨key, ?_⟩
  intro s hs
  rw [ft_opts, mem_sortBy, List.mem_filter] at hs
  rcases hs with ⟨hs, _⟩
  rw [mem_firstDedup] at hs
  rcases List.mem_filterMap.mp hs with ⟨r, hr, hfs⟩
  exact key r hr s hfs

theorem C8_velocity_excluded_witness :
    mkRow ⟨2024, 1, 2⟩ 30 1 (some "AA") (some "CNP") (some "chip") ∈ load_data exRows ∧
    "CNP" ∈ ft_opts (load_data exRows) ∧ strUpper "CNP" ≠ "VELOCITY" :=
  ⟨by decide, by decide, (C8_velocity_excluded exRows).2 "CNP" (by decide)⟩

/-- C10: the VELOCITY exclusion keeps every row whose `fraud_type` is
null — a null never compares equal (case-insensitively) to the excluded
value, so such rows survive `load_data`. -/
theorem C10_null_fraud_type_kept (raw : List Row) (r : Row)
    (h1 : r ∈ raw) (h2 : r.fraud_type = none) : r ∈ load_data raw :=
  List.mem_filter.mpr ⟨h1, by simp [keepsRow, h2]⟩

theorem C10_null_fraud_type_kept_witness :
    mkRow ⟨2024, 1, 2⟩ 20 0 (some "AA") none (some "manual") ∈ load_data exRows :=
  C10_null_fraud_type_kept exRows _ (by decide) (by decide)

/-! ### Helper lemmas for the Aggregator claims -/

theorem mem_groupbyKeys [DecidableEq κ] (le : κ → κ → Bool) (key : α → Option κ)
    (l : List α) (k : κ) :
    k ∈ groupbyKeys le key l ↔ ∃ a ∈ l, key a = some k := by
  rw [groupbyKeys, mem_sortBy, mem_firstDedup, List.mem_filterMap]

theorem groupRows_ne_nil [DecidableEq κ] (le : κ → κ → Bool) (key : α → Option κ)
    (l : List α) (k : κ) (hk : k ∈ groupbyKeys le key l) : groupRows key k l ≠ [] := by
  rcases (mem_groupbyKeys le key l k).mp hk with ⟨a, ha, hkey⟩
  intro hnil
  have hmem : a ∈ groupRows key k l := List.mem_filter.mpr ⟨ha, by simp [hkey]⟩
  simp [hnil] at hmem

theorem groupRows_subset [DecidableEq κ] (key : α → Option κ) (k : κ) (l : List α)
    (a : α) (ha : a ∈ groupRows key k l) : a ∈ l :=
  (List.mem_filter.mp ha).1

theorem fraud_sum_bounds (rows : List Row)
    (h : ∀ r ∈ rows, r.fraud = 0 ∨ r.fraud = 1) :
    0 ≤ (rows.map Row.fraud).sum ∧ (rows.map Row.fraud).sum ≤ rows.length := by
  induction rows with
  | nil => simp
  | cons r rows ih =>
    have hr := h r (List.mem_cons_self r rows)
    have ihs := ih fun x hx => h x (List.mem_cons_of_mem r hx)
    simp only [List.map_cons, List.sum_cons, List.length_cons, Nat.cast_add, Nat.cast_one]
    rcases hr with hr | hr <;> rw [hr] <;> constructor <;> linarith [ihs.1, ihs.2]

theorem fraudMean_bounds (rows : List Row) (hne : rows ≠ [])
    (h : ∀ r ∈ rows, r.fraud = 0 ∨ r.fraud = 1) :
    0 ≤ fraudMean rows ∧ fraudMean rows ≤ 1 := by
  have hlen : (0 : ℚ) < rows.length := by
    have := List.length_pos.mpr hne
    exact_mod_cast this
  rcases fraud_sum_bounds rows h with ⟨h0, h1⟩
  constructor
  · exact div_nonneg h0 (le_of_lt hlen)
  · rw [fraudMean, div_le_one hlen]
    exact h1

/-- C7: the output of the Geo Projector consists of exactly the
volume-aggregate rows whose country code is a key of `country_coords`,
each joined with its (latitude, longitude); an unmapped code contributes no geographic
point and raises no error. -/
theorem C7_geo_projection (view : List Row) (c : String) (n : Nat) (la lo : ℚ) :
    ((c, n, la, lo) ∈ countryVolGeo view ↔
      (c, n) ∈ countryVol view ∧ coordOf c = some (la, lo)) ∧
    (coordOf c = none → ∀ p ∈ countryVolGeo view, p.1 ≠ c) := by
  constructor
  · constructor
    · intro h
      rcases List.mem_filterMap.mp h with ⟨⟨c', n'⟩, hmem, hf⟩
      rcases hco : coordOf c' with _ | q
      · rw [hco] at hf
        simp at hf
      · rw [hco] at hf
        simp only [Option.some.injEq, Prod.mk.injEq] at hf
        rcases hf with ⟨rfl, rfl, rfl, rfl⟩
        exact ⟨hmem, hco⟩
    · rintro ⟨hmem, hco⟩
      exact List.mem_filterMap.mpr ⟨(c, n), hmem, by rw [hco]⟩
  · intro hco p hp hpc
    rcases List.mem_filterMap.mp hp with ⟨⟨c', n'⟩, _, hf⟩
    rcases hco' : coordOf c' with _ | q
    · rw [hco'] at hf
      simp at hf
    · rw [hco'] at hf
      simp only [Option.some.injEq] at hf
      rw [← hf] at hpc
      simp only at hpc
      rw [hpc] at hco'
      rw [hco'] at hco
      simp at hco

theorem C7_geo_projection_witness :
    ("GB", 1, 54, -2) ∈
      countryVolGeo [mkRow ⟨2024, 1, 1⟩ 50 1 (some "GB") none none,
        mkRow ⟨2024, 1, 1⟩ 30 1 (some "XX") none none] ∧
    (∀ p ∈ countryVolGeo [mkRow ⟨2024, 1, 1⟩ 50 1 (some "GB") none none,
        mkRow ⟨2024, 1, 1⟩ 30 1 (some "XX") none none], p.1 ≠ "XX") :=
  ⟨(C7_geo_projection _ "GB" 1 54 (-2)).1.mpr ⟨by decide, by decide⟩,
   (C7_geo_projection _ "XX" 0 0 0).2 (by decide)⟩

/-- C5: every rate aggregate is the group mean of the `fraud` flag times
100 over a non-empty group, hence lies in [0, 100] whenever the flag is
0/1-valued; this holds for the daily rate, the per-country rates, and the
truncated `by_country` series. -/
theorem C5_rates_bounded (view : List Row)
    (h : ∀ r ∈ view, r.fraud = 0 ∨ r.fraud = 1) :
    (∀ p ∈ dailyRate view,
      groupRows (fun r => some r.transaction_date_time) p.1 view ≠ [] ∧
      p.2 = fraudMean (groupRows (fun r => some r.transaction_date_time) p.1 view) * 100 ∧
      0 ≤ p.2 ∧ p.2 ≤ 100) ∧
    (∀ p ∈ countryRates view,
      groupRows Row.merchant_country_code p.1 view ≠ [] ∧
      p.2 = fraudMean (groupRows Row.merchant_country_code p.1 view) * 100 ∧
      0 ≤ p.2 ∧ p.2 ≤ 100) ∧
    (∀ p ∈ by_country view, 0 ≤ p.2 ∧ p.2 ≤ 100) := by
  have hdaily : ∀ p ∈ dailyRate view,
      groupRows (fun r => some r.transaction_date_time) p.1 view ≠ [] ∧
      p.2 = fraudMean (groupRows (fun r => some r.transaction_date_time) p.1 view) * 100 ∧
      0 ≤ p.2 ∧ p.2 ≤ 100 := by
    intro p hp
    rcases List.mem_map.mp hp with ⟨d, hd, rfl⟩
    have hne := groupRows_ne_nil dateLe (fun r => some r.transaction_date_time) view d hd
    have hbnd := fraudMean_bounds _ hne fun r hr =>
      h r (groupRows_subset (fun r => some r.transaction_date_time) d view r hr)
    refine ⟨hne, rfl, ?_, ?_⟩ <;> dsimp only <;> linarith [hbnd.1, hbnd.2]
  have hcountry : ∀ p ∈ countryRates view,
      groupRows Row.merchant_country_code p.1 view ≠ [] ∧
      p.2 = fraudMean (groupRows Row.merchant_country_code p.1 view) * 100 ∧
      0 ≤ p.2 ∧ p.2 ≤ 100 := by
    intro p hp
    rcases List.mem_map.mp hp with ⟨c, hc, rfl⟩
    have hne := groupRows_ne_nil strLe Row.merchant_country_code view c hc
    have hbnd := fraudMean_bounds _ hne fun r hr =>
      h r (groupRows_subset Row.merchant_country_code c view r hr)
    refine ⟨hne, rfl, ?_, ?_⟩ <;> dsimp only <;> linarith [hbnd.1, hbnd.2]
  refine ⟨hdaily, hcountry, ?_⟩
  intro p hp
  have hp' : p ∈ byCountryFull view := List.mem_of_mem_take hp
  have hp'' : p ∈ countryRates view := (mem_sortBy rateDesc p (countryRates view)).mp hp'
  exact (hcountry p hp'').2.2

theorem C5_rates_bounded_witness :
    0 ≤ (100 : ℚ) ∧ (100 : ℚ) ≤ 100 :=
  ((C5_rates_bounded exRows (by decide)).1 (⟨2024, 1, 1⟩, 100) (by decide)).2.2

/-- C6: the pivoted monthly-value-by-POS-mode table has one row per month
observed in the groupby and one cell per observed POS column in every row;
a (month, mode) combination backed by no fraud row has a missing groupby
cell, and the `fill_value=0` fill makes that cell `0`, never null. -/
theorem C6_pivot_fill_zero (view : List Row) :
    ((fraud_month_pos view).map Prod.fst = fmpMonths (fraudView view)) ∧
    (fmpMonths (fraudView view)).Nodup ∧
    (∀ pr ∈ fraud_month_pos view, pr.2.length = (fmpCols (fraudView view)).length) ∧
    (∀ m p, fmpCellOpt (fraudView view) m p = none ↔
      ¬∃ r ∈ fraudView view, fmpKey r = some (m, p)) ∧
    (∀ m p, fmpCellOpt (fraudView view) m p = none →
      (fmpCellOpt (fraudView view) m p).getD 0 = 0) := by
  refine ⟨?_, nodup_firstDedup _, ?_, ?_, ?_⟩
  · rw [fraud_month_pos, List.map_map]
    exact List.map_id _
  · intro pr hpr
    rcases List.mem_map.mp hpr with ⟨m, _, rfl⟩
    simp
  · intro m p
    have hkeys : (m, p) ∈ fmpKeys (fraudView view) ↔
        ∃ r ∈ fraudView view, fmpKey r = some (m, p) := by
      rw [fmpKeys]
      exact mem_groupbyKeys monthPosLe fmpKey (fraudView view) (m, p)
    rw [fmpCellOpt]
    constructor
    · intro hnone hobs
      rw [if_pos (hkeys.mpr hobs)] at hnone
      simp at hnone
    · intro hnobs
      rw [if_neg fun hmem => hnobs (hkeys.mp hmem)]
  · intro m p hnone
    rw [hnone]
    rfl

theorem C6_pivot_fill_zero_witness :
    (fmpCellOpt (fraudView exRows) ⟨2024, 1⟩ "manual").getD 0 = 0 :=
  (C6_pivot_fill_zero exRows).2.2.2.2 ⟨2024, 1⟩ "manual" (by decide)

/-! ### C3: tie-breaking of the truncated country rate breakdown -/

theorem rateDesc_total (a b : String × ℚ) : rateDesc a b = true ∨ rateDesc b a = true :=
  (ratLe_total b.2 a.2).elim Or.inl Or.inr

theorem rateDesc_trans (a b c : String × ℚ) (h1 : rateDesc a b = true)
    (h2 : rateDesc b c = true) : rateDesc a c = true :=
  ratLe_trans c.2 b.2 a.2 h2 h1

theorem strLe_refl (a : String) : strLe a a = true :=
  (strLe_total a a).elim id id

/-- C3 counterexample: with two tied 100%-rate countries seen in the order
ZZ then AA, the truncated breakdown emits AA before ZZ — the grouping
sorted key order of the grouping operation, not the first-encountered order the claim
asserts. -/
theorem C3_tie_break_counterexample :
    firstEncounteredCountries [mkRow ⟨2024, 1, 1⟩ 50 1 (some "ZZ") none none,
      mkRow ⟨2024, 1, 1⟩ 30 1 (some "AA") none none] = ["ZZ", "AA"] ∧
    (by_country [mkRow ⟨2024, 1, 1⟩ 50 1 (some "ZZ") none none,
      mkRow ⟨2024, 1, 1⟩ 30 1 (some "AA") none none]).map Prod.fst = ["AA", "ZZ"] ∧
    (by_country [mkRow ⟨2024, 1, 1⟩ 50 1 (some "ZZ") none none,
      mkRow ⟨2024, 1, 1⟩ 30 1 (some "AA") none none]).map Prod.snd = [100, 100] ∧
    (["AA", "ZZ"] : List String) ≠ ["ZZ", "AA"] :=
  ⟨by decide, by decide, by decide, by decide⟩

/-- C3 amended: in the truncated top-15 fraud-rate-by-country aggregate,
rates are non-increasing and countries with equal rates appear in ascending
country-code order — the sorted key order in which the grouping operation
emits groups (pandas `groupby(sort=True)`), with the descending rate sort
modelled as stable — not in first-encountered input order. -/
theorem C3_tie_break_amended (view : List Row) :
    (byCountryFull view).Pairwise
      (fun a b => b.2 ≤ a.2 ∧ (a.2 = b.2 → strLe a.1 b.1 = true ∧ a.1 ≠ b.1)) ∧
    (by_country view).Pairwise
      (fun a b => b.2 ≤ a.2 ∧ (a.2 = b.2 → strLe a.1 b.1 = true ∧ a.1 ≠ b.1)) := by
  have hkeys : (groupbyKeys strLe Row.merchant_country_code view).Pairwise
      (fun c d => strLe c d = true ∧ c ≠ d) := by
    have hnd : (firstDedup (view.filterMap Row.merchant_country_code)).Pairwise (· ≠ ·) :=
      nodup_firstDedup _
    refine (pairwise_sortBy strLe (· ≠ ·) _ strLe_total strLe_trans hnd).imp ?_
    rintro x y ⟨hle, hne⟩
    by_cases hyx : strLe y x = true
    · exact ⟨hle, hne hyx⟩
    · refine ⟨hle, fun heq => ?_⟩
      rw [heq] at hyx
      exact hyx (strLe_refl y)
  have hrates : (countryRates view).Pairwise
      (fun a b => strLe a.1 b.1 = true ∧ a.1 ≠ b.1) := by
    rw [countryRates]
    exact List.pairwise_map.mpr hkeys
  have hsorted := pairwise_sortBy rateDesc
    (fun a b => strLe a.1 b.1 = true ∧ a.1 ≠ b.1) (countryRates view)
    rateDesc_total rateDesc_trans hrates
  have hfull : (byCountryFull view).Pairwise
      (fun a b => b.2 ≤ a.2 ∧ (a.2 = b.2 → strLe a.1 b.1 = true ∧ a.1 ≠ b.1)) := by
    rw [byCountryFull]
    refine hsorted.imp ?_
    rintro x y ⟨h1, h2⟩
    refine ⟨?_, fun heq => h2 ?_⟩
    · simpa [rateDesc, ratLe] using h1
    · simp [rateDesc, ratLe, heq]
  exact ⟨hfull, hfull.sublist (List.take_sublist 15 _)⟩

/-! ### C2: monthly cumulative columns -/

theorem addCum_append (p rest pre : List DailyRow) :
    addCum pre (p ++ rest) = addCum pre p ++ addCum (pre ++ p) rest := by
  induction p generalizing pre with
  | nil => simp [addCum]
  | cons a p ih =>
    simp only [List.cons_append, addCum, List.cons.injEq, true_and, List.append_eq]
    rw [ih (pre ++ [a]), List.append_assoc]
    simp

theorem addCum_length (pre l : List DailyRow) : (addCum pre l).length = l.length := by
  induction l generalizing pre with
  | nil => rfl
  | cons a l ih => simp [addCum, ih]

/-- C2: the daily loss table is emitted in ascending (date, month) order
(chronological), and the cumulative columns of each row are the within-month
prefix sums of the rows up to and including it — resetting at each month
boundary, not a global running sum; consequently once no later row shares
the month of a row, the cumulative values of that row equal the totals
of its whole month. -/
theorem C2_monthly_cumulative (view : List Row) :
    ((dailyTable view).Pairwise fun x y =>
      dailyKeyLe (x.date, x.month) (y.date, y.month) = true) ∧
    (∀ p a s, dailyTable view = p ++ a :: s →
      ∃ pre c post, dailyWithCum view = pre ++ c :: post ∧
        pre.length = p.length ∧
        c.date = a.date ∧ c.month = a.month ∧
        c.fraud_volume = a.fraud_volume ∧ c.fraud_value = a.fraud_value ∧
        c.month_cum_volume = (((p ++ [a]).filter fun x =>
          decide (x.month = a.month)).map DailyRow.fraud_volume).sum ∧
        c.month_cum_value = (((p ++ [a]).filter fun x =>
          decide (x.month = a.month)).map DailyRow.fraud_value).sum ∧
        ((s.filter fun x => decide (x.month = a.month)) = [] →
          c.month_cum_volume = (((dailyTable view).filter fun x =>
            decide (x.month = a.month)).map DailyRow.fraud_volume).sum ∧
          c.month_cum_value = (((dailyTable view).filter fun x =>
            decide (x.month = a.month)).map DailyRow.fraud_value).sum)) := by
  constructor
  · rw [dailyTable, groupbyKeys]
    exact List.pairwise_map.mpr
      (sorted_sortBy dailyKeyLe _ dailyKeyLe_total dailyKeyLe_trans)
  · intro p a s h
    have hsplit : dailyWithCum view = addCum [] p ++
        ({ date := a.date, month := a.month, fraud_volume := a.fraud_volume
           fraud_value := a.fraud_value
           month_cum_volume := (((p ++ [a]).filter fun x =>
             decide (x.month = a.month)).map DailyRow.fraud_volume).sum
           month_cum_value := (((p ++ [a]).filter fun x =>
             decide (x.month = a.month)).map DailyRow.fraud_value).sum } : DailyCumRow)
        :: addCum (p ++ [a]) s := by
      rw [dailyWithCum, h, addCum_append]
      simp [addCum]
    refine ⟨addCum [] p, _, addCum (p ++ [a]) s, hsplit, addCum_length [] p,
      rfl, rfl, rfl, rfl, rfl, rfl, ?_⟩
    intro hs
    have hfilter : ((dailyTable view).filter fun x => decide (x.month = a.month)) =
        ((p ++ [a]).filter fun x => decide (x.month = a.month)) := by
      rw [h]
      simp [List.filter_append, List.filter_cons, hs]
    rw [hfilter]
    exact ⟨rfl, rfl⟩

theorem C2_monthly_cumulative_witness :
    ∃ pre c post,
      dailyWithCum exRows = pre ++ c :: post ∧
      pre.length = [(⟨⟨2024, 1, 1⟩, ⟨2024, 1⟩, 1, 50⟩ : DailyRow)].length ∧
      c.date = (⟨⟨2024, 1, 2⟩, ⟨2024, 1⟩, 1, 30⟩ : DailyRow).date ∧
      c.month = (⟨⟨2024, 1, 2⟩, ⟨2024, 1⟩, 1, 30⟩ : DailyRow).month ∧
      c.fraud_volume = (⟨⟨2024, 1, 2⟩, ⟨2024, 1⟩, 1, 30⟩ : DailyRow).fraud_volume ∧
      c.fraud_value = (⟨⟨2024, 1, 2⟩, ⟨2024, 1⟩, 1, 30⟩ : DailyRow).fraud_value ∧
      c.month_cum_volume = ((([(⟨⟨2024, 1, 1⟩, ⟨2024, 1⟩, 1, 50⟩ : DailyRow)] ++
        [(⟨⟨2024, 1, 2⟩, ⟨2024, 1⟩, 1, 30⟩ : DailyRow)]).filter fun x =>
          decide (x.month = (⟨⟨2024, 1, 2⟩, ⟨2024, 1⟩, 1, 30⟩ : DailyRow).month)).map
            DailyRow.fraud_volume).sum ∧
      c.month_cum_value = ((([(⟨⟨2024, 1, 1⟩, ⟨2024, 1⟩, 1, 50⟩ : DailyRow)] ++
        [(⟨⟨2024, 1, 2⟩, ⟨2024, 1⟩, 1, 30⟩ : DailyRow)]).filter fun x =>
          decide (x.month = (⟨⟨2024, 1, 2⟩, ⟨2024, 1⟩, 1, 30⟩ : DailyRow).month)).map
            DailyRow.fraud_value).sum ∧
      (([(⟨⟨2024, 2, 1⟩, ⟨2024, 2⟩, 1, 40⟩ : DailyRow)].filter fun x =>
          decide (x.month = (⟨⟨2024, 1, 2⟩, ⟨2024, 1⟩, 1, 30⟩ : DailyRow).month)) = [] →
        c.month_cum_volume = (((dailyTable exRows).filter fun x =>
          decide (x.month = (⟨⟨2024, 1, 2⟩, ⟨2024, 1⟩, 1, 30⟩ : DailyRow).month)).map
            DailyRow.fraud_volume).sum ∧
        c.month_cum_value = (((dailyTable exRows).filter fun x =>
          decide (x.month = (⟨⟨2024, 1, 2⟩, ⟨2024, 1⟩, 1, 30⟩ : DailyRow).month)).map
            DailyRow.fraud_value).sum) :=
  (C2_monthly_cumulative exRows).2 [⟨⟨2024, 1, 1⟩, ⟨2024, 1⟩, 1, 50⟩]
    ⟨⟨2024, 1, 2⟩, ⟨2024, 1⟩, 1, 30⟩ [⟨⟨2024, 2, 1⟩, ⟨2024, 2⟩, 1, 40⟩] (by decide)
